import Mathlib

/-!
Verification of `vocab_coverage/embedding.py` (model-vocab-check).

We shallowly embed the parts of the file that the specification talks
about: the vocabulary builder `get_vocab`, the input-embedding extraction
`get_input_embeddings`, the sanitization loop inside `embedding_analysis`,
the output-file naming, and the per-embedding-type control flow of
`embedding_analysis` (skip-if-exists, sanitize, short-circuit on zero rows,
exception propagation).

Floating-point values are modelled abstractly: the code never computes with
them in the fragments under study, it only classifies them with `np.isnan`
(and the spec talks about finiteness), so a value is either a finite
rational, an infinity, or NaN.
-/

/-- Abstract model of a numpy float: a finite value, an infinity, or NaN. -/
inductive FVal where
  | finite (q : ℚ)
  | posInf
  | negInf
  | nan
deriving DecidableEq, Repr

/-- `np.isnan` on a single element. -/
def FVal.isNan : FVal → Bool
  | .nan => true
  | _ => false

/-- Finiteness of a single element (`np.isfinite`): neither NaN nor infinite. -/
def FVal.isFinite : FVal → Bool
  | .finite _ => true
  | _ => false

/-- One row of an embedding matrix. -/
abbrev Row := List FVal

/-- `np.isnan(e).any()` for a row `e`: some element is NaN. -/
def rowHasNan (e : Row) : Bool := e.any FVal.isNan

/-- Every element of the row is finite (no NaN, no infinity). -/
def rowAllFinite (e : Row) : Bool := e.all FVal.isFinite

/-- The sanitization loop of `embedding_analysis` (embedding.py lines
323-332), recursing over the remaining rows while `i` is the index of the
current row in the original matrix.  Returns
(`not_non_embeddings`, `not_non_vocab`, emitted warnings as (index, token)
pairs).  A row is dropped exactly when `np.isnan(e).any()` holds; the
dropped row is logged with its index and `vocab[i]`. -/
def sanitizeGo (vocab : List String) : Nat → List Row → List Row × List String × List (Nat × String)
  | _, [] => ([], [], [])
  | i, e :: rest =>
    let r := sanitizeGo vocab (i + 1) rest
    if rowHasNan e then
      (r.1, r.2.1, (i, vocab.getD i "") :: r.2.2)
    else
      (e :: r.1, vocab.getD i "" :: r.2.1, r.2.2)

/-- The sanitization step of `embedding_analysis`: start the loop at index 0. -/
def sanitize (rows : List Row) (vocab : List String) : List Row × List String × List (Nat × String) :=
  sanitizeGo vocab 0 rows

/-! ### `get_vocab` (embedding.py lines 23-49)

The tokenizer's vocabulary is modelled as a list of (token, id) pairs
(`tokenizer.get_vocab().items()`), and `convert_tokens_to_string` as a
function from token to surface string.  `get_vocab` computes
`vocab_size = max(ids) + 1`, allocates `[''] * vocab_size`, and writes
`convert k` at index `v` for each pair `(k, v)`, skipping out-of-range ids. -/

/-- `max([id for id in tokenizer.get_vocab().values()])` (0 on the empty
list, where the Python raises instead; theorems about `get_vocab` therefore
assume a non-empty vocabulary). -/
def maxId (tokvocab : List (String × Nat)) : Nat :=
  (tokvocab.map Prod.snd).foldl Nat.max 0

/-- One iteration of the `for k, v in tokenizer.get_vocab().items()` loop:
skip out-of-range ids, otherwise write the converted token at index `v`. -/
def vocabStep (convert : String → String) (vocab_size : Nat)
    (vocab : List String) (kv : String × Nat) : List String :=
  if vocab_size ≤ kv.2 then vocab else vocab.set kv.2 (convert kv.1)

/-- `get_vocab` for the non-OpenAI path, with the conversion function
abstracted (the code tries `convert_tokens_to_string` and falls back to the
raw token; `convert` is whichever succeeds). -/
def get_vocab (tokvocab : List (String × Nat)) (convert : String → String) : List String :=
  tokvocab.foldl (vocabStep convert (maxId tokvocab + 1))
    (List.replicate (maxId tokvocab + 1) "")

/-! ### `get_input_embeddings` (embedding.py lines 68-112) and the
vocabulary truncation in `embedding_analysis` (lines 294-299)

The input-embedding layer is modelled by its weight matrix: looking up the
token ids `arange(0, vocab_size)` returns the first `vocab_size` rows of
the weight matrix. -/

/-- Lines 294-299: if the tokenizer vocabulary is longer than the model's
input-embedding weight matrix, truncate it to the model's row count. -/
def truncate_vocab (vocab : List String) (model_vocab_size : Nat) : List String :=
  if vocab.length > model_vocab_size then vocab.take model_vocab_size else vocab

/-- Lines 95-100 of `get_input_embeddings`:
`vocab_size = min(weight.shape[0], len(vocab))`, then extract the rows for
token ids `0 .. vocab_size-1`. -/
def get_input_embeddings (weight : List Row) (vocab : List String) : List Row :=
  weight.take (min weight.length vocab.length)

/-! ### Output-file naming and per-embedding-type control flow of
`embedding_analysis` (embedding.py lines 280-350) -/

def EMBEDDING_TYPE_INPUT : String := "input"

def EMBEDDING_TYPE_OUTPUT : String := "output"

/-- `model_name.replace('/', '_')`: for a one-character pattern this is a
character map. -/
def replaceSlashUnderscore (s : String) : String :=
  String.mk (s.data.map (fun c => if c = '/' then '_' else c))

def startsWithSlash (s : String) : Bool :=
  match s.data with
  | [] => false
  | c :: _ => c = '/'

def endsWithSlash (s : String) : Bool :=
  match s.data.getLast? with
  | some c => c = '/'
  | none => false

/-- `os.path.join` for the cases the code exercises. -/
def ospath_join (a b : String) : String :=
  if startsWithSlash b then b
  else if a = "" then b
  else if endsWithSlash a then a ++ b
  else a ++ "/" ++ b

/-- Lines 310-313: `f".{postfix}"` when a non-empty postfix is given,
otherwise the empty string. -/
def postfixText (pf : Option String) : String :=
  match pf with
  | some p => if p.length > 0 then "." ++ p else ""
  | none => ""

/-- Lines 303-308: the directory the image is written to; `output_dir`
defaults to `'images'`, and unless `flat` is set the subdirectory
`assets/embeddings` is appended. -/
def workdirOf (output_dir : Option String) (flat : Bool) : String :=
  let dir := output_dir.getD "images"
  if flat then dir else ospath_join (ospath_join dir "assets") "embeddings"

/-- Line 314: `model_name.replace('/', '_') + f'.embeddings.{etype}{postfix_text}.jpg'`. -/
def outputFileName (model_name etype : String) (pf : Option String) : String :=
  replaceSlashUnderscore model_name ++ ".embeddings." ++ etype ++ postfixText pf ++ ".jpg"

/-- The inputs of one `embedding_analysis` call that the per-etype loop
reads.  The external collaborators (model loading, the embedding
extraction's outcome, the renderer's image) are abstracted: `embInput` /
`embOutput` are the results of `get_input_embeddings` /
`get_output_embeddings` (matrix, or the exception they raise), and
`renderOk` is whether `draw_vocab_embeddings` returns a non-`None` image. -/
structure Config where
  model_name : String
  embInput : Except String (List Row)
  embOutput : Except String (List Row)
  output_dir : Option String
  pfix : Option String
  flat : Bool
  override : Bool
  renderOk : Bool

/-- Lines 302-315: the full output path for one embedding type. -/
def output_file (cfg : Config) (etype : String) : String :=
  ospath_join (workdirOf cfg.output_dir cfg.flat)
    (outputFileName cfg.model_name etype cfg.pfix)

/-- `get_embeddings` (lines 252-259): dispatch on the embedding type,
returning `None` for an unknown type. -/
def get_embeddings_model (cfg : Config) (etype : String) : Except String (Option (List Row)) :=
  if etype = EMBEDDING_TYPE_INPUT then cfg.embInput.map some
  else if etype = EMBEDDING_TYPE_OUTPUT then cfg.embOutput.map some
  else .ok none

/-- Observable state threaded through the per-etype loop of
`embedding_analysis`: the set of files existing on disk, the current
`vocab` variable (which the loop body reassigns to the sanitized
vocabulary), and the histories of computed / rendered embedding types and
written files. -/
structure AState where
  fs : List String
  vocab : List String
  computed : List String
  rendered : List String
  written : List String
deriving DecidableEq

/-- One iteration of `for etype in embedding_type:` (lines 301-350).
`Except.error` models an uncaught Python exception escaping
`embedding_analysis` (the loop body has no try/except).  In order:
skip-if-exists check (lines 316-319), `get_embeddings` (line 322) whose
exception propagates, the sanitization loop (lines 323-332) — iterating
over a `None` result raises a `TypeError` here, before the `None` guard of
line 333 —, then the guard `embeddings is not None and len(embeddings) > 0`
(line 333), the reduce+draw call (lines 335-343), and the save (lines
345-350, skipped with a warning when the image is `None`). -/
def etype_step (cfg : Config) (st : AState) (etype : String) : Except String AState :=
  let path := output_file cfg etype
  if cfg.override = false ∧ path ∈ st.fs then
    .ok st
  else
    match get_embeddings_model cfg etype with
    | .error e => .error e
    | .ok none => .error "TypeError: NoneType is not iterable"
    | .ok (some rows) =>
      let s := sanitize rows st.vocab
      let st1 : AState :=
        { st with vocab := s.2.1, computed := st.computed ++ [etype] }
      if s.1.length > 0 then
        if cfg.renderOk then
          .ok { st1 with rendered := st1.rendered ++ [etype],
                         written := st1.written ++ [path],
                         fs := path :: st1.fs }
        else
          .ok { st1 with rendered := st1.rendered ++ [etype] }
      else
        .ok st1

/-- The `for etype in embedding_type:` loop: run the iterations in order,
aborting the whole call when an iteration raises. -/
def analysis_loop (cfg : Config) : List String → AState → Except String AState
  | [], st => .ok st
  | etype :: rest, st =>
    match etype_step cfg st etype with
    | .error e => .error e
    | .ok st' => analysis_loop cfg rest st'

/-! ### Concrete data for witnesses and counterexamples -/

/-- An initial state: empty output directory, two-token vocabulary. -/
def stBase : AState :=
  { fs := [], vocab := ["a", "b"], computed := [], rendered := [], written := [] }

/-- A run whose input-embedding matrix consists solely of NaN rows. -/
def cfgNanOnly : Config :=
  { model_name := "org/model", embInput := .ok [[FVal.nan], [FVal.nan]],
    embOutput := .ok [[FVal.finite 1]], output_dir := some "out",
    pfix := none, flat := true, override := true, renderOk := true }

/-- A run whose input-embedding extraction raises the exception "boom". -/
def cfgBoom : Config :=
  { cfgNanOnly with embInput := .error "boom" }

/-- A run whose input-embedding extraction succeeds with two finite rows. -/
def cfgGood : Config :=
  { cfgNanOnly with embInput := .ok [[FVal.finite 1], [FVal.finite 2]] }

/-- Same naming inputs as `cfgGood`, different override / renderer /
embedding outcome. -/
def cfgGoodVariant : Config :=
  { cfgGood with override := false, renderOk := false, embInput := .error "other" }

/-- A state in which the output file for `cfgGoodVariant`/`input` already
exists on disk. -/
def stWithFile : AState :=
  { stBase with fs := [output_file cfgGoodVariant EMBEDDING_TYPE_INPUT] }

/-- A small tokenizer vocabulary, listed out of id order. -/
def tokvocabW : List (String × Nat) := [("B", 1), ("A", 0)]

/-- A sample `convert_tokens_to_string`. -/
def convertW : String → String := fun s => "_" ++ s

/-! ### Helper lemmas about the sanitizer -/

/-- The surviving rows are exactly the rows without a NaN element, in order. -/
theorem sanitizeGo_rows (vocab : List String) :
    ∀ (i : Nat) (rows : List Row),
      (sanitizeGo vocab i rows).1 = rows.filter (fun e => !rowHasNan e) := by
  intro i rows
  induction rows generalizing i with
  | nil => rfl
  | cons e rest ih =>
    simp only [sanitizeGo, List.filter_cons]
    cases h : rowHasNan e with
    | true => simp [h, ih]
    | false => simp [h, ih]

/-- The sanitizer keeps the row list and the vocabulary list the same length. -/
theorem sanitizeGo_len (vocab : List String) :
    ∀ (i : Nat) (rows : List Row),
      (sanitizeGo vocab i rows).1.length = (sanitizeGo vocab i rows).2.1.length := by
  intro i rows
  induction rows generalizing i with
  | nil => rfl
  | cons e rest ih =>
    simp only [sanitizeGo]
    cases h : rowHasNan e with
    | true => simpa [h] using ih (i + 1)
    | false => simpa [h] using ih (i + 1)

/-- Pairing: zipping the surviving rows with the surviving vocabulary gives
exactly the NaN-free pairs of the original zip, in their original order. -/
theorem sanitizeGo_zip (vocab : List String) :
    ∀ (rows : List Row) (i : Nat), i + rows.length ≤ vocab.length →
      ((sanitizeGo vocab i rows).1).zip (sanitizeGo vocab i rows).2.1
        = ((rows.zip (vocab.drop i)).filter fun p => !rowHasNan p.1) := by
  intro rows
  induction rows with
  | nil => intro i _; simp [sanitizeGo]
  | cons e rest ih =>
    intro i hlen
    have hi : i < vocab.length := by
      have := hlen
      simp only [List.length_cons] at this
      omega
    have hdrop : vocab.drop i = vocab.getD i "" :: vocab.drop (i + 1) := by
      rw [List.getD_eq_getElem vocab "" hi]
      exact List.drop_eq_getElem_cons hi
    have hrest : (i + 1) + rest.length ≤ vocab.length := by
      simp only [List.length_cons] at hlen
      omega
    simp only [sanitizeGo, hdrop, List.zip_cons_cons, List.filter_cons]
    cases h : rowHasNan e with
    | true => simp [h, ih (i + 1) hrest]
    | false => simp [h, ih (i + 1) hrest]

/-- Every dropped row is reported: if row `j` (counting from the start of the
loop, whose first row has index `i`) contains a NaN, then the pair
(absolute index, vocabulary token at that index) appears in the warnings. -/
theorem sanitizeGo_report (vocab : List String) :
    ∀ (rows : List Row) (i j : Nat), j < rows.length →
      rowHasNan (rows.getD j []) = true →
      (i + j, vocab.getD (i + j) "") ∈ (sanitizeGo vocab i rows).2.2 := by
  intro rows
  induction rows with
  | nil => intro i j hj; simp at hj
  | cons e rest ih =>
    intro i j hj hnan
    cases j with
    | zero =>
      simp only [List.getD_cons_zero] at hnan
      simp [sanitizeGo, hnan]
    | succ j =>
      simp only [List.getD_cons_succ] at hnan
      have hj' : j < rest.length := by simp only [List.length_cons] at hj; omega
      have := ih (i + 1) j hj' hnan
      have harith : i + 1 + j = i + (j + 1) := by omega
      rw [harith] at this
      simp only [sanitizeGo]
      cases h : rowHasNan e with
      | true =>
        simp only [h, if_true]
        exact List.mem_cons_of_mem _ this
      | false => simpa [h] using this

theorem map_snd_zip_of_len {α β : Type} :
    ∀ (l1 : List α) (l2 : List β), l1.length = l2.length →
      (l1.zip l2).map Prod.snd = l2 := by
  intro l1
  induction l1 with
  | nil =>
    intro l2 h
    cases l2 with
    | nil => rfl
    | cons y ys => simp at h
  | cons x xs ih =>
    intro l2 h
    cases l2 with
    | nil => simp at h
    | cons y ys =>
      simp only [List.zip_cons_cons, List.map_cons]
      rw [ih ys (by simpa using h)]

/-! ### Helper lemmas about `get_vocab` -/

theorem foldl_max_init_le (l : List Nat) : ∀ a : Nat, a ≤ l.foldl Nat.max a := by
  induction l with
  | nil => intro a; exact Nat.le_refl a
  | cons x xs ih =>
    intro a
    exact Nat.le_trans (Nat.le_max_left a x) (ih (Nat.max a x))

theorem mem_le_foldl_max {x : Nat} :
    ∀ (l : List Nat) (a : Nat), x ∈ l → x ≤ l.foldl Nat.max a := by
  intro l
  induction l with
  | nil => intro a h; cases h
  | cons y ys ih =>
    intro a h
    rcases List.mem_cons.mp h with rfl | hmem
    · exact Nat.le_trans (Nat.le_max_right a x) (foldl_max_init_le ys _)
    · exact ih (Nat.max a y) hmem

theorem le_maxId_of_mem {p : String × Nat} {tokvocab : List (String × Nat)}
    (h : p ∈ tokvocab) : p.2 ≤ maxId tokvocab :=
  mem_le_foldl_max (tokvocab.map Prod.snd) 0 (List.mem_map_of_mem Prod.snd h)

theorem getD_set_ne {α : Type} (d a : α) :
    ∀ (l : List α) (i j : Nat), i ≠ j → (l.set i a).getD j d = l.getD j d := by
  intro l
  induction l with
  | nil => intro i j _; simp [List.set]
  | cons x xs ih =>
    intro i j hne
    cases i with
    | zero =>
      cases j with
      | zero => exact absurd rfl hne
      | succ j => simp [List.set]
    | succ i =>
      cases j with
      | zero => simp [List.set]
      | succ j =>
        simp only [List.set, List.getD_cons_succ]
        exact ih i j (by omega)

theorem getD_set_self {α : Type} (d a : α) :
    ∀ (l : List α) (i : Nat), i < l.length → (l.set i a).getD i d = a := by
  intro l
  induction l with
  | nil => intro i h; simp at h
  | cons x xs ih =>
    intro i h
    cases i with
    | zero => simp [List.set]
    | succ i =>
      simp only [List.set, List.getD_cons_succ]
      exact ih i (by simpa using Nat.lt_of_succ_lt_succ h)

theorem vocabFold_length (convert : String → String) (sz : Nat) :
    ∀ (l : List (String × Nat)) (init : List String),
      (l.foldl (vocabStep convert sz) init).length = init.length := by
  intro l
  induction l with
  | nil => intro init; rfl
  | cons kv rest ih =>
    intro init
    simp only [List.foldl_cons]
    rw [ih]
    unfold vocabStep
    split <;> simp

theorem vocabFold_getD_of_not_mem (convert : String → String) (sz : Nat) :
    ∀ (l : List (String × Nat)) (init : List String) (v : Nat),
      v ∉ l.map Prod.snd →
      (l.foldl (vocabStep convert sz) init).getD v "" = init.getD v "" := by
  intro l
  induction l with
  | nil => intro init v _; rfl
  | cons kv rest ih =>
    intro init v hv
    simp only [List.map_cons, List.mem_cons, not_or] at hv
    simp only [List.foldl_cons]
    rw [ih (vocabStep convert sz init kv) v hv.2]
    unfold vocabStep
    split
    · rfl
    · exact getD_set_ne "" (convert kv.1) init kv.2 v (fun h => hv.1 h.symm)

theorem vocabFold_getD_of_mem (convert : String → String) (sz : Nat) :
    ∀ (l : List (String × Nat)) (init : List String),
      (l.map Prod.snd).Nodup → init.length = sz →
      ∀ k v, (k, v) ∈ l → v < sz →
      (l.foldl (vocabStep convert sz) init).getD v "" = convert k := by
  intro l
  induction l with
  | nil => intro init _ _ k v hmem; cases hmem
  | cons kv rest ih =>
    intro init hnodup hlen k v hmem hlt
    simp only [List.map_cons, List.nodup_cons] at hnodup
    rcases List.mem_cons.mp hmem with heq | hmem'
    · cases heq
      simp only [List.foldl_cons]
      rw [vocabFold_getD_of_not_mem convert sz rest _ v hnodup.1]
      unfold vocabStep
      simp only [Nat.not_le.mpr hlt, if_neg (Nat.not_le.mpr hlt)]
      exact getD_set_self "" (convert k) init v (hlen ▸ hlt)
    · simp only [List.foldl_cons]
      have hlen' : (vocabStep convert sz init kv).length = sz := by
        unfold vocabStep
        split <;> simp [hlen]
      exact ih (vocabStep convert sz init kv) hnodup.2 hlen' k v hmem' hlt

/-! ### Claims -/

/-- Claim C1, counterexample: a row whose only non-finite element is an
infinity survives sanitization, so a surviving row is not fully finite —
the loop checks `np.isnan` only, not infiniteness. -/
theorem C1_counterexample :
    (sanitize [[FVal.posInf], [FVal.finite 1]] ["a", "b"]).1
        = [[FVal.posInf], [FVal.finite 1]]
    ∧ rowAllFinite [FVal.posInf] = false :=
  ⟨rfl, rfl⟩

/-- Claim C1 (amended): the sanitization step of `embedding_analysis` keeps
exactly the rows with no NaN element, in order; every surviving row is
NaN-free, but rows containing infinities (and no NaN) survive, so infinite
values can still reach the reducer and renderer. -/
theorem C1_sanitizer_drops_nan_rows (rows : List Row) (vocab : List String) :
    (sanitize rows vocab).1 = rows.filter (fun e => !rowHasNan e)
    ∧ ∀ r ∈ (sanitize rows vocab).1, rowHasNan r = false := by
  constructor
  · exact sanitizeGo_rows vocab 0 rows
  · intro r hr
    rw [sanitize, sanitizeGo_rows vocab 0 rows] at hr
    simpa using List.of_mem_filter hr

/-- Claim C2: for an N-row matrix paired with an N-length vocabulary, the
sanitization step outputs equally long row and vocabulary lists of length
M ≤ N, and the surviving (row, vocabulary entry) pairs are exactly the
NaN-free pairs of the input, in their original relative order. -/
theorem C2_sanitize_alignment (rows : List Row) (vocab : List String)
    (h : vocab.length = rows.length) :
    (sanitize rows vocab).1.length = (sanitize rows vocab).2.1.length
    ∧ (sanitize rows vocab).1.length ≤ rows.length
    ∧ (sanitize rows vocab).1.zip (sanitize rows vocab).2.1
        = ((rows.zip vocab).filter fun p => !rowHasNan p.1) := by
  refine ⟨sanitizeGo_len vocab 0 rows, ?_, ?_⟩
  · rw [sanitize, sanitizeGo_rows vocab 0 rows]
    exact List.length_filter_le _ _
  · have := sanitizeGo_zip vocab rows 0 (by omega)
    simpa using this

/-- Witness for C2 at a concrete input with one NaN row. -/
theorem C2_witness :
    (sanitize [[FVal.nan], [FVal.finite 1]] ["a", "b"]).1.length
        = (sanitize [[FVal.nan], [FVal.finite 1]] ["a", "b"]).2.1.length
    ∧ (sanitize [[FVal.nan], [FVal.finite 1]] ["a", "b"]).1.length
        ≤ ([[FVal.nan], [FVal.finite 1]] : List Row).length
    ∧ (sanitize [[FVal.nan], [FVal.finite 1]] ["a", "b"]).1.zip
          (sanitize [[FVal.nan], [FVal.finite 1]] ["a", "b"]).2.1
        = ((([[FVal.nan], [FVal.finite 1]] : List Row).zip ["a", "b"]).filter
            fun p => !rowHasNan p.1) :=
  C2_sanitize_alignment [[FVal.nan], [FVal.finite 1]] ["a", "b"] rfl

/-- Claim C3: when sanitization leaves zero rows, the iteration for that
embedding type returns normally (no exception) without invoking the
reducer or renderer and without writing any file. -/
theorem C3_zero_rows_short_circuit (cfg : Config) (st : AState) (etype : String)
    (rows : List Row)
    (hskip : ¬(cfg.override = false ∧ output_file cfg etype ∈ st.fs))
    (hemb : get_embeddings_model cfg etype = .ok (some rows))
    (hzero : (sanitize rows st.vocab).1.length = 0) :
    ∃ st', etype_step cfg st etype = .ok st'
      ∧ st'.rendered = st.rendered ∧ st'.written = st.written ∧ st'.fs = st.fs := by
  refine ⟨{ st with vocab := (sanitize rows st.vocab).2.1, computed := st.computed ++ [etype] }, ?_, rfl, rfl, rfl⟩
  unfold etype_step
  rw [if_neg hskip, hemb]
  simp [hzero]

/-- Witness for C3: an input-embedding matrix made of NaN rows only. -/
theorem C3_witness :
    ∃ st', etype_step cfgNanOnly stBase EMBEDDING_TYPE_INPUT = .ok st'
      ∧ st'.rendered = stBase.rendered ∧ st'.written = stBase.written
      ∧ st'.fs = stBase.fs :=
  C3_zero_rows_short_circuit cfgNanOnly stBase EMBEDDING_TYPE_INPUT
    [[FVal.nan], [FVal.nan]] (by decide) rfl rfl

/-- Claim C4, counterexample: an exception raised by the input-embedding
extraction propagates out of the whole per-embedding-type loop — the run
for the remaining type `'output'` (whose extraction would have succeeded)
never happens, instead of being caught and logged per embedding type. -/
theorem C4_counterexample :
    analysis_loop cfgBoom [EMBEDDING_TYPE_INPUT, EMBEDDING_TYPE_OUTPUT] stBase
        = .error "boom"
    ∧ get_embeddings_model cfgBoom EMBEDDING_TYPE_OUTPUT
        = .ok (some [[FVal.finite 1]]) :=
  ⟨rfl, rfl⟩

/-- Claim C4 (amended): an error raised while getting the embeddings of one
embedding type is not caught inside `embedding_analysis` (and
`get_input_embeddings` re-raises after logging): it propagates out of the
per-embedding-type loop, aborting the remaining embedding types of that
model; isolating failures per model is left to the caller. -/
theorem C4_error_propagates (cfg : Config) (st : AState) (etype : String)
    (rest : List String) (msg : String)
    (hskip : ¬(cfg.override = false ∧ output_file cfg etype ∈ st.fs))
    (herr : get_embeddings_model cfg etype = .error msg) :
    analysis_loop cfg (etype :: rest) st = .error msg := by
  unfold analysis_loop etype_step
  rw [if_neg hskip, herr]

/-- Witness for the amended C4 at a concrete failing extraction. -/
theorem C4_witness :
    analysis_loop cfgBoom [EMBEDDING_TYPE_INPUT] stBase = .error "boom" :=
  C4_error_propagates cfgBoom stBase EMBEDDING_TYPE_INPUT [] "boom" (by decide) rfl

/-- Claim C5: with `override` false and the output file already existing,
the iteration for that embedding type leaves the state completely
unchanged (no embeddings computed, nothing rendered or written, the file
untouched); with `override` true the skip check is bypassed and, when the
pipeline succeeds, the file is (re)written. -/
theorem C5_skip_and_override (cfg : Config) (st : AState) (etype : String) :
    (cfg.override = false → output_file cfg etype ∈ st.fs →
       etype_step cfg st etype = .ok st)
    ∧ (cfg.override = true →
       ∀ rows, get_embeddings_model cfg etype = .ok (some rows) →
         0 < (sanitize rows st.vocab).1.length → cfg.renderOk = true →
         ∃ st', etype_step cfg st etype = .ok st'
           ∧ st'.written = st.written ++ [output_file cfg etype]
           ∧ output_file cfg etype ∈ st'.fs) := by
  constructor
  · intro hov hmem
    unfold etype_step
    rw [if_pos ⟨hov, hmem⟩]
  · intro hov rows hemb hpos hrok
    refine ⟨{ st with vocab := (sanitize rows st.vocab).2.1, computed := st.computed ++ [etype], rendered := st.rendered ++ [etype], written := st.written ++ [output_file cfg etype], fs := output_file cfg etype :: st.fs }, ?_, rfl, List.mem_cons_self _ _⟩
    unfold etype_step
    rw [if_neg (by simp [hov]), hemb]
    simp [hpos, hrok]

/-- Witness for C5: skip on an existing file without `override`, write with
`override` set. -/
theorem C5_witness :
    etype_step cfgGoodVariant stWithFile EMBEDDING_TYPE_INPUT = .ok stWithFile
    ∧ ∃ st', etype_step cfgGood stBase EMBEDDING_TYPE_INPUT = .ok st'
        ∧ st'.written = stBase.written ++ [output_file cfgGood EMBEDDING_TYPE_INPUT]
        ∧ output_file cfgGood EMBEDDING_TYPE_INPUT ∈ st'.fs :=
  ⟨(C5_skip_and_override cfgGoodVariant stWithFile EMBEDDING_TYPE_INPUT).1 rfl
      (by simp [stWithFile]),
   (C5_skip_and_override cfgGood stBase EMBEDDING_TYPE_INPUT).2 rfl
      [[FVal.finite 1], [FVal.finite 2]] rfl (by decide) rfl⟩

/-- Claim C6: the output path is a deterministic function of the model
name, embedding type, postfix, output directory and flat flag — two
configurations agreeing on those inputs target the same path — and is
built by joining the work directory with the model name with '/' replaced
by '_' followed by `.embeddings.<etype><postfix_text>.jpg`. -/
theorem C6_path_deterministic (c1 c2 : Config) (etype : String)
    (h1 : c1.model_name = c2.model_name) (h2 : c1.output_dir = c2.output_dir)
    (h3 : c1.pfix = c2.pfix) (h4 : c1.flat = c2.flat) :
    output_file c1 etype = output_file c2 etype
    ∧ output_file c1 etype
        = ospath_join (workdirOf c1.output_dir c1.flat)
            (replaceSlashUnderscore c1.model_name ++ ".embeddings." ++ etype
              ++ postfixText c1.pfix ++ ".jpg") := by
  constructor
  · unfold output_file outputFileName
    rw [h1, h2, h3, h4]
  · rfl

/-- Witness for C6: `cfgGood` and `cfgGoodVariant` differ in override,
renderer and extraction outcome but share all naming inputs. -/
theorem C6_witness :
    output_file cfgGood EMBEDDING_TYPE_INPUT
        = output_file cfgGoodVariant EMBEDDING_TYPE_INPUT
    ∧ output_file cfgGood EMBEDDING_TYPE_INPUT
        = ospath_join (workdirOf cfgGood.output_dir cfgGood.flat)
            (replaceSlashUnderscore cfgGood.model_name ++ ".embeddings."
              ++ EMBEDDING_TYPE_INPUT ++ postfixText cfgGood.pfix ++ ".jpg") :=
  C6_path_deterministic cfgGood cfgGoodVariant EMBEDDING_TYPE_INPUT rfl rfl rfl rfl

/-- Claim C7, counterexample: with vocabulary `["a", "a"]` and a NaN first
row, the dropped row is reported as `(0, "a")`, yet the token string "a"
still appears in the vocabulary passed onward, because the same surface
string also occurs at a surviving index. -/
theorem C7_counterexample :
    (sanitize [[FVal.nan], [FVal.finite 1]] ["a", "a"]).2.2 = [(0, "a")]
    ∧ (sanitize [[FVal.nan], [FVal.finite 1]] ["a", "a"]).2.1 = ["a"]
    ∧ "a" ∈ (sanitize [[FVal.nan], [FVal.finite 1]] ["a", "a"]).2.1 :=
  ⟨rfl, rfl, by decide⟩

/-- Claim C7 (amended): every dropped row is reported with its index and
its vocabulary token, and the vocabulary entry at each dropped index is
excluded from the vocabulary passed onward (which consists exactly of the
entries at surviving indices, in order); the dropped token's string may
still appear if it also occurs at a surviving index. -/
theorem C7_dropped_reported (rows : List Row) (vocab : List String)
    (h : vocab.length = rows.length) :
    (∀ j, j < rows.length → rowHasNan (rows.getD j []) = true →
       (j, vocab.getD j "") ∈ (sanitize rows vocab).2.2)
    ∧ (sanitize rows vocab).2.1
        = ((rows.zip vocab).filter fun p => !rowHasNan p.1).map Prod.snd := by
  constructor
  · intro j hj hnan
    simpa using sanitizeGo_report vocab rows 0 j hj hnan
  · have hzip := sanitizeGo_zip vocab rows 0 (by omega)
    have hlen := sanitizeGo_len vocab 0 rows
    calc (sanitize rows vocab).2.1
        = ((sanitize rows vocab).1.zip (sanitize rows vocab).2.1).map Prod.snd :=
          (map_snd_zip_of_len _ _ hlen).symm
      _ = ((rows.zip (vocab.drop 0)).filter fun p => !rowHasNan p.1).map Prod.snd := by
          rw [sanitize, hzip]
      _ = ((rows.zip vocab).filter fun p => !rowHasNan p.1).map Prod.snd := by
          rw [List.drop_zero]

/-- Witness for the amended C7 at a concrete input with one NaN row. -/
theorem C7_witness :
    (0, "a") ∈ (sanitize [[FVal.nan], [FVal.finite 1]] ["a", "b"]).2.2
    ∧ (sanitize [[FVal.nan], [FVal.finite 1]] ["a", "b"]).2.1
        = ((([[FVal.nan], [FVal.finite 1]] : List Row).zip ["a", "b"]).filter
            fun p => !rowHasNan p.1).map Prod.snd :=
  ⟨(C7_dropped_reported [[FVal.nan], [FVal.finite 1]] ["a", "b"] rfl).1 0
      (by decide) rfl,
   (C7_dropped_reported [[FVal.nan], [FVal.finite 1]] ["a", "b"] rfl).2⟩

/-- Claim C8: for a non-empty tokenizer vocabulary with pairwise-distinct
ids, `get_vocab` returns a list of length `max id + 1` whose entry at
index `v` is the surface string of the token with id `v`, for every
(token, id) pair — the vocabulary is ordered by token id. -/
theorem C8_get_vocab_ordered (tokvocab : List (String × Nat)) (convert : String → String)
    (_hne : tokvocab ≠ []) (hnodup : (tokvocab.map Prod.snd).Nodup) :
    (get_vocab tokvocab convert).length = maxId tokvocab + 1
    ∧ ∀ k v, (k, v) ∈ tokvocab → (get_vocab tokvocab convert).getD v "" = convert k := by
  constructor
  · unfold get_vocab
    rw [vocabFold_length]
    simp
  · intro k v hmem
    unfold get_vocab
    exact vocabFold_getD_of_mem convert (maxId tokvocab + 1) tokvocab _ hnodup
      (by simp) k v hmem (Nat.lt_succ_of_le (le_maxId_of_mem hmem))

/-- Witness for C8: a two-token vocabulary listed out of id order. -/
theorem C8_witness :
    (get_vocab tokvocabW convertW).length = maxId tokvocabW + 1
    ∧ ∀ k v, (k, v) ∈ tokvocabW → (get_vocab tokvocabW convertW).getD v "" = convertW k :=
  C8_get_vocab_ordered tokvocabW convertW (by decide) (by decide)

/-- Claim C9: for an embedding type other than 'input' or 'output',
`get_embeddings` returns `None`, and the iteration then raises (the
sanitization loop iterates over `None`) before the `None` guard of line
333 is reached — the run does not degrade gracefully. -/
theorem C9_unknown_etype_raises (cfg : Config) (st : AState) (etype : String)
    (h1 : etype ≠ EMBEDDING_TYPE_INPUT) (h2 : etype ≠ EMBEDDING_TYPE_OUTPUT)
    (hskip : ¬(cfg.override = false ∧ output_file cfg etype ∈ st.fs)) :
    get_embeddings_model cfg etype = .ok none
    ∧ etype_step cfg st etype = .error "TypeError: NoneType is not iterable" := by
  have hemb : get_embeddings_model cfg etype = .ok none := by
    unfold get_embeddings_model
    rw [if_neg h1, if_neg h2]
  refine ⟨hemb, ?_⟩
  unfold etype_step
  rw [if_neg hskip, hemb]

/-- Witness for C9 at the unknown embedding type "word". -/
theorem C9_witness :
    get_embeddings_model cfgGood "word" = .ok none
    ∧ etype_step cfgGood stBase "word" = .error "TypeError: NoneType is not iterable" :=
  C9_unknown_etype_raises cfgGood stBase "word" (by decide) (by decide) (by decide)

/-- Claim C10: the vocabulary truncation of `embedding_analysis` cuts the
vocabulary to `min(len(vocab), weight rows)`, and `get_input_embeddings`
then extracts `min(weight rows, len(vocab))` rows, so after truncation the
extracted matrix has exactly one row per retained vocabulary entry. -/
theorem C10_truncation_alignment (weight : List Row) (vocab : List String) :
    (truncate_vocab vocab weight.length).length = min vocab.length weight.length
    ∧ (get_input_embeddings weight vocab).length = min weight.length vocab.length
    ∧ (get_input_embeddings weight (truncate_vocab vocab weight.length)).length
        = (truncate_vocab vocab weight.length).length := by
  refine ⟨?_, ?_, ?_⟩
  · unfold truncate_vocab
    by_cases h : vocab.length > weight.length
    · rw [if_pos h]
      simp only [List.length_take]
      omega
    · rw [if_neg h]
      omega
  · unfold get_input_embeddings
    simp only [List.length_take]
    omega
  · unfold truncate_vocab get_input_embeddings
    by_cases h : vocab.length > weight.length
    · rw [if_pos h]
      simp only [List.length_take]
      omega
    · rw [if_neg h]
      simp only [List.length_take]
      omega
